import Mathlib

/-!
Verification of the update-polling and notification-scheduling core of the
scrapper-and-telegram-bot repository.

The embedding models, from the source:
  * `URLTypeDefiner.define` (src/scrapper/url_type_definer.py) — URL domain
    dispatch, raising on unsupported domains;
  * `BatchLinksService.batch_links` and `BatchLinksService._add_cron_task`
    (src/scrapper/services/batch_links_service.py) — chunking, per-link change
    detection with ignore filters, routing to a deferred one-shot job or the
    immediate batch, and marker persistence via `repo.change_date`;
  * `Scheduler.start` (src/scrapper/services/scheduler.py) — the polling loop
    step: pagination, empty-page backoff, page advance;
  * `UpdateSenderToBot.send_update_request`
    (src/scrapper/services/update_sender_to_bot.py) — per-pair delivery with
    per-pair error isolation.

External effects (client fetches, DB reads/writes, job scheduling) are
represented by an explicit environment and by traces of events, in the order
the source performs them.  A raised Python exception that a surrounding
`try/except` catches is modelled by an `Option`/result value; an exception
that propagates is modelled by `Except.error`.
-/

/-- Result of one fetch: the activity marker (date) and the author, as the
dict returned by `client.get_info_by_url_with_filters` (keys "date", "user"). -/
structure Info where
  date : String
  user : String
  deriving DecidableEq, Repr

/-- A tracked link row as `LinkDTO` (src/scrapper/schemas/link_dto.py). -/
structure LinkDTO where
  link_id : Nat
  tg_id : Nat
  link : String
  date : String
  filters : List String
  tags : List String
  deriving DecidableEq, Repr

/-- Boolean prefix test on character lists (for Python's `str.startswith`). -/
def isPrefixB : List Char → List Char → Bool
  | [], _ => true
  | _ :: _, [] => false
  | a :: as, b :: bs => a == b && isPrefixB as bs

/-- Boolean infix test on character lists (for Python's `in` on strings). -/
def isInfixB (pat : List Char) : List Char → Bool
  | [] => isPrefixB pat []
  | x :: rest => isPrefixB pat (x :: rest) || isInfixB pat rest

/-- Python `pat in s` for strings. -/
def strContains (s pat : String) : Bool :=
  isInfixB pat.toList s.toList

/-- Embedding of `URLTypeDefiner.define`: returns the domain tag, or `none`
for the raised `UrlIsNotSupportedException` (src/scrapper/url_type_definer.py,
lines 34-40). -/
def URLTypeDefiner_define (url : String) : Option String :=
  if strContains url "github.com" then some "github.com"
  else if strContains url "stackoverflow.com" then some "stackoverflow.com"
  else none

/-- Python `f.split(":", 1)[1]`: everything after the first colon. -/
def afterFirstColon (f : String) : String :=
  ((f.toList.dropWhile (· ≠ ':')).drop 1).asString

/-- The ignore-set of a link: `[f.split(":", 1)[1] for f in link.filters if
f.startswith("ignore:")]` (batch_links_service.py lines 115-117). -/
def ignoresOf (l : LinkDTO) : List String :=
  (l.filters.filter (fun f => isPrefixB "ignore:".toList f.toList)).map afterFirstColon

/-- Outcome of `repo.get_time_push_up(tg_id)`: the call may raise (caught at
batch_links_service.py line 122), return `None`, or return a wall-clock time
(modelled as minutes after midnight). -/
inductive PushUpRes where
  | raises
  | noneVal
  | timeVal (t : Nat)
  deriving DecidableEq, Repr

/-- The effective preference after the `except` handler at line 127 sets
`push_up_time = None` on a raised lookup. -/
def effPushUp : PushUpRes → Option Nat
  | .timeVal t => some t
  | _ => none

/-- Run time computed by `_add_cron_task` (lines 205-209): today's date at
`notif_time`, plus one day if that datetime is already strictly in the past.
Days are day numbers, times minutes after midnight in the fixed zone. -/
def nextRunPair (today nowMin notifMin : Nat) : Nat × Nat :=
  if notifMin < nowMin then (today + 1, notifMin) else (today, notifMin)

/-- The APScheduler job id `f"one_shot_{link_id}"` (line 226). -/
def oneShotId (link_id : Nat) : String :=
  "one_shot_" ++ toString link_id

/-- One observable side effect of `batch_links`, in source order:
a one-shot job handed to the cron scheduler, a pair appended to the chunk's
immediate batch, or a `repo.change_date` call (`ok = false` when the call
raises, e.g. `LinkIsNotFoundException`). -/
inductive Event where
  | cronScheduled (id : String) (payload : List (LinkDTO × Info))
      (runDay runMin : Nat)
  | appended (pair : LinkDTO × Info)
  | changeDateCall (link_id : Nat) (date : String) (ok : Bool)
  deriving DecidableEq, Repr

/-- Environment of one `batch_links` invocation: fetch outcomes (`none` = the
call raised and the per-link `except` at line 147 catches it), the
`get_time_push_up` outcome per chat, whether `change_date` succeeds per link,
and the scheduler clock (`date.today()` / `datetime.now`). -/
structure Env where
  fetch : LinkDTO → Option Info
  pushUp : Nat → PushUpRes
  changeOk : Nat → Bool
  today : Nat
  nowMin : Nat

/-- Per-link processing inside `batch_links` (lines 104-151).
`URLTypeDefiner.define` and `ClientFactory.create_client` run before the
`try:` block, so an unsupported URL raises out of `batch_links`
(`Except.error`).  Everything from the fetch on is inside the `try`, so a
raised fetch or `change_date` is caught and only truncates this link's
effects.  The returned trace lists this link's effects in source order. -/
def processLink (env : Env) (l : LinkDTO) : Except Unit (List Event) :=
  match URLTypeDefiner_define l.link with
  | none => .error ()
  | some _ =>
    match env.fetch l with
    | none => .ok []
    | some info =>
      if info.date ≠ l.date ∧ info.user ∉ ignoresOf l then
        let route : Event :=
          match effPushUp (env.pushUp l.tg_id) with
          | some t =>
            let rd := nextRunPair env.today env.nowMin t
            .cronScheduled (oneShotId l.link_id) [(l, info)] rd.1 rd.2
          | none => .appended (l, info)
        .ok [route, .changeDateCall l.link_id info.date (env.changeOk l.link_id)]
      else
        .ok []

/-- Trace of a link when its processing does not raise out of the loop. -/
def linkTrace (env : Env) (l : LinkDTO) : List Event :=
  match processLink env l with
  | .ok tr => tr
  | .error _ => []

/-- Python `[links[i : i + cs] for i in range(0, len(links), cs)]` for a
positive step `cs` (batch_links_service.py line 98). -/
def chunksOf (cs : Nat) (xs : List LinkDTO) : List (List LinkDTO) :=
  if h : xs = [] ∨ cs = 0 then []
  else xs.take cs :: chunksOf cs (xs.drop cs)
termination_by xs.length
decreasing_by
  simp only [not_or] at h
  have hx : xs ≠ [] := h.1
  have hc : cs ≠ 0 := h.2
  have : 0 < xs.length := List.length_pos.mpr hx
  simp only [List.length_drop]
  omega

/-- The pairs appended to a chunk's `links_with_updates` list, read off a
trace. -/
def immediates (tr : List Event) : List (LinkDTO × Info) :=
  tr.filterMap (fun e =>
    match e with
    | .appended p => some p
    | _ => none)

/-- Sequential processing of one chunk (the inner `for link in chunk:` loop).
An uncaught exception aborts the chunk, keeping the effects already made. -/
def chunkRun (env : Env) : List LinkDTO → Except (List Event) (List Event)
  | [] => .ok []
  | l :: rest =>
    match processLink env l with
    | .error _ => .error []
    | .ok tr =>
      match chunkRun env rest with
      | .error tr2 => .error (tr ++ tr2)
      | .ok tr2 => .ok (tr ++ tr2)

/-- Sequential processing of all chunks (the outer `for chunk in chunks:`
loop), collecting the per-chunk immediate batches pushed onto `to_send`. -/
def batchChunks (env : Env) :
    List (List LinkDTO) → Except (List Event) (List Event × List (List (LinkDTO × Info)))
  | [] => .ok ([], [])
  | c :: cs =>
    match chunkRun env c with
    | .error tr => .error tr
    | .ok tr =>
      match batchChunks env cs with
      | .error tr2 => .error (tr ++ tr2)
      | .ok (tr2, toS) => .ok (tr ++ tr2, immediates tr :: toS)

/-- Embedding of `BatchLinksService.batch_links` (lines 72-161): early return
on an empty list, chunking with `chunk_size = max(1, len(links) // 4)`,
sequential chunk processing, and on normal completion the list of per-chunk
immediate batches handed to the thread pool (`to_send`).  `Except.error`
carries the trace of effects made before an uncaught exception propagated. -/
def batch_links (env : Env) (links : List LinkDTO) :
    Except (List Event) (List Event × List (List (LinkDTO × Info))) :=
  if links.isEmpty then .ok ([], [])
  else batchChunks env (chunksOf (max 1 (links.length / 4)) links)

/-- Calls to `repo.change_date` recorded in a trace. -/
def changeCalls (tr : List Event) : List (Nat × String) :=
  tr.filterMap (fun e =>
    match e with
    | .changeDateCall i d _ => some (i, d)
    | _ => none)

/-- Marker writes that actually landed (the `change_date` calls that did not
raise). -/
def appliedChanges (tr : List Event) : List (Nat × String) :=
  tr.filterMap (fun e =>
    match e with
    | .changeDateCall i d true => some (i, d)
    | _ => none)

/-- Notification jobs created in a trace: deferred cron jobs and
immediate-batch entries. -/
def notifEvents (tr : List Event) : List Event :=
  tr.filter (fun e =>
    match e with
    | .cronScheduled _ _ _ _ => true
    | .appended _ => true
    | _ => false)

/-- Deferred cron jobs created in a trace. -/
def cronEvents (tr : List Event) : List Event :=
  tr.filter (fun e =>
    match e with
    | .cronScheduled _ _ _ _ => true
    | _ => false)

/-- One iteration of `Scheduler.start`'s `while True:` loop
(scheduler.py lines 46-55): read a page; on an empty page reset to page 1 and
sleep 3600 seconds; otherwise process the batch and advance the page.  The
result carries (next page, optional sleep seconds, batch outcome); an
exception raised by `batch_links` propagates out of the loop. -/
def schedStep (getPage : Nat → List LinkDTO) (env : Env) (page : Nat) :
    Except (List Event) (Nat × Option Nat × (List Event × List (List (LinkDTO × Info)))) :=
  let links := getPage page
  if links.isEmpty then .ok (1, some 3600, ([], []))
  else
    match batch_links env links with
    | .error tr => .error tr
    | .ok out => .ok (page + 1, none, out)

/-- The per-chunk immediate batches handed to the thread pool when
`batch_links` completes normally. -/
def toSendOf (env : Env) (links : List LinkDTO) : List (List (LinkDTO × Info)) :=
  (chunksOf (max 1 (links.length / 4)) links).map
    (fun c => immediates (c.flatMap (linkTrace env)))

/-- A pending one-shot job held by the cron scheduler: the payload passed as
`args=[links_info]` and the computed run date/time. -/
structure JobRec where
  payload : List (LinkDTO × Info)
  runDay : Nat
  runMin : Nat
  deriving DecidableEq, Repr

/-- Modelled from the spec: the pending-job table of the one-shot scheduler
(`AsyncIOScheduler`, a third-party component whose code is not in the
repository).  `add_job(..., id=..., replace_existing=True)` (batch_links_service.py
lines 221-229) stores the job under its id, replacing any pending job with the
same id — a cancel-and-replace map entry, last-write-wins. -/
def addJob (m : List (String × JobRec)) (id : String) (j : JobRec) :
    List (String × JobRec) :=
  m.filter (fun e => e.1 != id) ++ [(id, j)]

/-- Modelled from the spec: firing a job id delivers the payload currently
stored under that id, if any. -/
def lookupJob (m : List (String × JobRec)) (id : String) : Option JobRec :=
  match m.filter (fun e => e.1 == id) with
  | [] => none
  | e :: _ => some e.2

/-- Number of pending jobs stored under one id. -/
def pendingCount (m : List (String × JobRec)) (id : String) : Nat :=
  (m.filter (fun e => e.1 == id)).length

/-- JSON payload built for one pair by `send_update_request`
(update_sender_to_bot.py lines 58-63). -/
structure Payload where
  id : Nat
  url : String
  description : String
  tgChatIds : List String
  deriving DecidableEq, Repr

/-- The payload of one (link, info) pair; the rendered description is an
abstraction of `DescMakerService.make_desc` (HTML extraction is external
to this core). -/
def mkPayload (descMaker : Info → String) (pair : LinkDTO × Info) : Payload :=
  { id := pair.1.tg_id
    url := pair.1.link
    description := descMaker pair.2
    tgChatIds := [toString pair.1.tg_id] }

/-- Embedding of `UpdateSenderToBot.send_update_request` (lines 45-69): one
POST attempt per pair, in order; `post` returns the attempt's outcome
(`false` = the request raised, caught by the per-pair `except` at line 68, and
the loop continues).  The result is the log of attempts with outcomes. -/
def send_update_request (post : Payload → Bool) (descMaker : Info → String) :
    List (LinkDTO × Info) → List (Payload × Bool)
  | [] => []
  | pair :: rest =>
      (mkPayload descMaker pair, post (mkPayload descMaker pair)) ::
        send_update_request post descMaker rest

/-- The single notification job routed for a changed, non-ignored link:
a deferred one-shot cron job when the chat has a `time_push_up`, otherwise an
append to the chunk's immediate batch (batch_links_service.py lines 129-134). -/
def routeEvent (env : Env) (l : LinkDTO) (info : Info) : Event :=
  match effPushUp (env.pushUp l.tg_id) with
  | some t =>
      .cronScheduled (oneShotId l.link_id) [(l, info)]
        (nextRunPair env.today env.nowMin t).1 (nextRunPair env.today env.nowMin t).2
  | none => .appended (l, info)

/-- Fetched info used by the concrete scenarios: a new activity marker
authored by "bob". -/
def infoBob : Info := ⟨"2024", "bob"⟩

/-- A tracked link whose ignore filter names "bob" and whose stored marker is
older than the fetched one. -/
def linkIgn : LinkDTO := ⟨1, 10, "https://github.com/x/y", "2020", ["ignore:bob"], []⟩

/-- Concrete environment: every fetch returns `infoBob`, no chat has a
`time_push_up`, `change_date` succeeds. -/
def env1 : Env := ⟨fun _ => some infoBob, fun _ => .noneVal, fun _ => true, 0, 0⟩

/-- A page of five identical links, used to exercise the chunking rule. -/
def links5 : List LinkDTO := [linkIgn, linkIgn, linkIgn, linkIgn, linkIgn]

/-- Fetched info whose marker equals `linkSame`'s stored marker. -/
def infoSame : Info := ⟨"2024", "alice"⟩

/-- A link whose stored marker already equals the fetched one. -/
def linkSame : LinkDTO := ⟨3, 11, "https://github.com/x/y", "2024", [], []⟩

/-- Concrete environment for the unchanged-marker scenario. -/
def envSame : Env := ⟨fun _ => some infoSame, fun _ => .noneVal, fun _ => true, 0, 0⟩

/-- Fetched info authored by "carol", not matched by any ignore filter. -/
def infoCarol : Info := ⟨"2024", "carol"⟩

/-- A changed link whose ignore filter does not match the fetched author. -/
def linkNew : LinkDTO :=
  ⟨4, 12, "https://stackoverflow.com/questions/1", "2020", ["ignore:bob"], []⟩

/-- Concrete environment whose chat has `time_push_up` 09:00 at clock
09:30 (minutes 540 and 570). -/
def envPush : Env := ⟨fun _ => some infoCarol, fun _ => .timeVal 540, fun _ => true, 100, 570⟩

/-- A tracked link with an unsupported URL domain: `URLTypeDefiner.define`
raises `UrlIsNotSupportedException` for it, outside the per-link `try`. -/
def linkBad : LinkDTO := ⟨5, 13, "https://example.com", "2020", [], []⟩

/-- A supported link with a pending change in `env2`. -/
def linkGood : LinkDTO := ⟨6, 13, "https://github.com/a/b", "2020", [], []⟩

/-- Concrete environment in which every fetch succeeds with `infoCarol`. -/
def env2 : Env := ⟨fun _ => some infoCarol, fun _ => .noneVal, fun _ => true, 0, 0⟩

/-- Environment in which exactly the fetch of link id 7 raises. -/
def envFail : Env :=
  ⟨fun l => if l.link_id = 7 then none else some infoCarol,
   fun _ => .noneVal, fun _ => true, 0, 0⟩

/-- Supported link whose fetch raises in `envFail`. -/
def linkG1 : LinkDTO := ⟨7, 14, "https://github.com/c/d", "2020", [], []⟩

/-- Supported link processed after `linkG1` in the same page. -/
def linkG2 : LinkDTO := ⟨8, 14, "https://github.com/e/f", "2020", [], []⟩

/-- Environment in which every `change_date` call raises
(`LinkIsNotFoundException`, e.g. the link was deleted mid-poll). -/
def envCDFail : Env := ⟨fun _ => some infoCarol, fun _ => .noneVal, fun _ => false, 0, 0⟩

lemma processLink_isOk (env : Env) (l : LinkDTO)
    (h : URLTypeDefiner_define l.link ≠ none) :
    processLink env l = .ok (linkTrace env l) := by
  cases hp : processLink env l with
  | ok tr => simp [linkTrace, hp]
  | error e =>
    exfalso
    unfold processLink at hp
    split at hp
    · exact h (by assumption)
    · split at hp
      · simp at hp
      · split at hp <;> simp at hp

lemma chunkRun_ok (env : Env) (c : List LinkDTO)
    (h : ∀ x ∈ c, URLTypeDefiner_define x.link ≠ none) :
    chunkRun env c = .ok (c.flatMap (linkTrace env)) := by
  induction c with
  | nil => rfl
  | cons l rest ih =>
    have h1 := processLink_isOk env l (h l (by simp))
    have h2 := ih (fun x hx => h x (by simp [hx]))
    simp [chunkRun, h1, h2]

lemma batchChunks_ok (env : Env) (cs : List (List LinkDTO))
    (h : ∀ c ∈ cs, ∀ x ∈ c, URLTypeDefiner_define x.link ≠ none) :
    batchChunks env cs =
      .ok (cs.flatMap (fun c => c.flatMap (linkTrace env)),
           cs.map (fun c => immediates (c.flatMap (linkTrace env)))) := by
  induction cs with
  | nil => rfl
  | cons c t ih =>
    have h1 := chunkRun_ok env c (h c (by simp))
    have h2 := ih (fun c' hc' x hx => h c' (by simp [hc']) x hx)
    simp [batchChunks, h1, h2]

lemma chunksOf_flatten (cs : Nat) (hcs : 0 < cs) (xs : List LinkDTO) :
    (chunksOf cs xs).flatten = xs := by
  by_cases hx : xs = []
  · subst hx
    rw [chunksOf]
    simp
  · rw [chunksOf, dif_neg (by simp [hx]; omega)]
    rw [List.flatten_cons, chunksOf_flatten cs hcs (xs.drop cs)]
    exact List.take_append_drop cs xs
termination_by xs.length
decreasing_by
  have : 0 < xs.length := List.length_pos.mpr hx
  simp only [List.length_drop]
  omega

lemma flatMap_flatten (L : List (List LinkDTO)) (f : LinkDTO → List Event) :
    L.flatMap (fun c => c.flatMap f) = L.flatten.flatMap f := by
  induction L with
  | nil => simp
  | cons c t ih => simp [List.flatMap_append, ih]

lemma batch_links_ok (env : Env) (links : List LinkDTO)
    (h : ∀ x ∈ links, URLTypeDefiner_define x.link ≠ none) :
    batch_links env links = .ok (links.flatMap (linkTrace env), toSendOf env links) := by
  by_cases hl : links = []
  · subst hl
    simp [batch_links, toSendOf, chunksOf]
  · have hcs : 0 < max 1 (links.length / 4) := by omega
    have hj := chunksOf_flatten (max 1 (links.length / 4)) hcs links
    have hmem : ∀ c ∈ chunksOf (max 1 (links.length / 4)) links,
        ∀ x ∈ c, URLTypeDefiner_define x.link ≠ none := by
      intro c hc x hx
      exact h x (by rw [← hj]; exact List.mem_flatten.mpr ⟨c, hc, hx⟩)
    rw [batch_links, if_neg (by simp [hl])]
    rw [batchChunks_ok env _ hmem]
    rw [flatMap_flatten, hj]
    rfl

lemma chunksOf_ne_nil (cs : Nat) (hcs : 0 < cs) (xs : List LinkDTO) (hx : xs ≠ []) :
    chunksOf cs xs ≠ [] := by
  rw [chunksOf, dif_neg (by simp [hx]; omega)]
  simp

lemma chunksOf_dropLast_length (cs : Nat) (hcs : 0 < cs) (xs : List LinkDTO) :
    ∀ c ∈ (chunksOf cs xs).dropLast, c.length = cs := by
  by_cases hx : xs = []
  · subst hx
    rw [chunksOf]
    simp
  · rw [chunksOf, dif_neg (by simp [hx]; omega)]
    by_cases hd : xs.drop cs = []
    · rw [hd, chunksOf]
      simp
    · intro c hc
      rw [List.dropLast_cons_of_ne_nil (chunksOf_ne_nil cs hcs _ hd)] at hc
      rcases List.mem_cons.mp hc with h1 | h2
      · subst h1
        have hlen : cs ≤ xs.length := by
          by_contra hlt
          push_neg at hlt
          exact hd (List.drop_eq_nil_of_le (le_of_lt hlt))
        exact List.length_take_of_le hlen
      · exact chunksOf_dropLast_length cs hcs (xs.drop cs) c h2
termination_by xs.length
decreasing_by
  have : 0 < xs.length := List.length_pos.mpr hx
  simp only [List.length_drop]
  omega

lemma chunksOf_mem_length (cs : Nat) (hcs : 0 < cs) (xs : List LinkDTO) :
    ∀ c ∈ chunksOf cs xs, c ≠ [] ∧ c.length ≤ cs := by
  by_cases hx : xs = []
  · subst hx
    rw [chunksOf]
    simp
  · rw [chunksOf, dif_neg (by simp [hx]; omega)]
    intro c hc
    rcases List.mem_cons.mp hc with h1 | h2
    · subst h1
      refine ⟨List.length_pos.mp ?_, ?_⟩
      · rw [List.length_take]
        have := List.length_pos.mpr hx
        omega
      · rw [List.length_take]
        omega
    · exact chunksOf_mem_length cs hcs (xs.drop cs) c h2
termination_by xs.length
decreasing_by
  have : 0 < xs.length := List.length_pos.mpr hx
  simp only [List.length_drop]
  omega

lemma chunksOf_length (cs : Nat) (hcs : 0 < cs) (xs : List LinkDTO) (hx : xs ≠ []) :
    (chunksOf cs xs).length = (xs.length + cs - 1) / cs := by
  rw [chunksOf, dif_neg (by simp [hx]; omega)]
  by_cases hd : xs.drop cs = []
  · have hle : xs.length ≤ cs := by
      by_contra hgt
      push_neg at hgt
      have h1 := List.length_drop cs xs
      rw [hd] at h1
      simp at h1
      omega
    rw [hd, chunksOf]
    have h1 : 0 < xs.length := List.length_pos.mpr hx
    have h2 : xs.length + cs - 1 = (xs.length - 1) + cs := by omega
    rw [dif_pos (Or.inl rfl)]
    simp only [List.length_cons, List.length_nil]
    rw [h2, Nat.add_div_right _ hcs, Nat.div_eq_of_lt (by omega)]
  · have hgt : cs < xs.length := by
      by_contra hle
      push_neg at hle
      exact hd (List.drop_eq_nil_of_le hle)
    rw [List.length_cons, chunksOf_length cs hcs (xs.drop cs) hd, List.length_drop]
    have h2 : xs.length + cs - 1 = (xs.length - cs + cs - 1) + cs := by omega
    rw [h2, Nat.add_div_right _ hcs]
termination_by xs.length
decreasing_by
  have : 0 < xs.length := List.length_pos.mpr hx
  simp only [List.length_drop]
  omega

lemma addJob_filter_eq (m : List (String × JobRec)) (id : String) (j : JobRec) :
    (addJob m id j).filter (fun e => e.1 == id) = [(id, j)] := by
  induction m with
  | nil => simp [addJob]
  | cons a t ih =>
    by_cases h : a.1 = id
    · simpa [addJob, h] using ih
    · simpa [addJob, List.filter_cons, h] using ih

lemma send_update_request_append (post : Payload → Bool) (descMaker : Info → String)
    (xs ys : List (LinkDTO × Info)) :
    send_update_request post descMaker (xs ++ ys) =
      send_update_request post descMaker xs ++ send_update_request post descMaker ys := by
  induction xs with
  | nil => rfl
  | cons a t ih => simp [send_update_request, ih]

lemma send_update_request_length (post : Payload → Bool) (descMaker : Info → String)
    (xs : List (LinkDTO × Info)) :
    (send_update_request post descMaker xs).length = xs.length := by
  induction xs with
  | nil => rfl
  | cons a t ih => simp [send_update_request, ih]

lemma processLink_eq (env : Env) (l : LinkDTO) (d : String) (info : Info)
    (hd : URLTypeDefiner_define l.link = some d) (hf : env.fetch l = some info) :
    processLink env l =
      if info.date ≠ l.date ∧ info.user ∉ ignoresOf l then
        .ok [routeEvent env l info,
             .changeDateCall l.link_id info.date (env.changeOk l.link_id)]
      else .ok [] := by
  unfold processLink
  rw [hd, hf]
  rfl

lemma chunksOf_nil_eq (cs : Nat) : chunksOf cs [] = [] := by
  rw [chunksOf]
  simp

lemma chunksOf_cons_eq (cs : Nat) (hcs : cs ≠ 0) (x : LinkDTO) (xs : List LinkDTO) :
    chunksOf cs (x :: xs) =
      (x :: xs).take cs :: chunksOf cs ((x :: xs).drop cs) := by
  rw [chunksOf, dif_neg (by simp [hcs])]

lemma batch_links_error_head (env : Env) (bad : LinkDTO) (rest : List LinkDTO)
    (hbad : URLTypeDefiner_define bad.link = none) :
    batch_links env (bad :: rest) = .error [] := by
  have hpl : processLink env bad = .error () := by
    unfold processLink
    rw [hbad]
  obtain ⟨k, hk⟩ : ∃ k, max 1 ((bad :: rest).length / 4) = k + 1 :=
    ⟨max 1 ((bad :: rest).length / 4) - 1, by omega⟩
  rw [batch_links, if_neg (by simp), hk]
  rw [chunksOf_cons_eq (k + 1) (by omega), List.take_succ_cons]
  simp [batchChunks, chunkRun, hpl]

/-- C1 counterexample: for `linkIgn` the fetched marker "2024" differs from
the stored "2020" and the fetched author "bob" is in the ignore set, yet
`batch_links` makes no `repo.change_date` call at all: the guard at line 119
(`new_date != link.date and author not in ignores`) skips the whole block,
marker persistence included, so the claimed store update does not happen. -/
theorem claim_C1_counterexample :
    infoBob.date ≠ linkIgn.date ∧ infoBob.user ∈ ignoresOf linkIgn ∧
    env1.fetch linkIgn = some infoBob ∧
    batch_links env1 [linkIgn] = .ok ([], [[]]) ∧
    changeCalls ([linkIgn].flatMap (linkTrace env1)) = [] := by
  refine ⟨by decide, by decide, rfl, ?_, rfl⟩
  rw [batch_links_ok env1 [linkIgn] (by intro x hx; simp at hx; subst hx; decide)]
  have hch : chunksOf (max 1 (([linkIgn] : List LinkDTO).length / 4)) [linkIgn]
      = [[linkIgn]] := by
    rw [show max 1 (([linkIgn] : List LinkDTO).length / 4) = 1 by rfl]
    rw [chunksOf_cons_eq 1 one_ne_zero]
    simp [chunksOf_nil_eq]
  rw [toSendOf, hch]
  rfl

/-- C1 (amended): for every link whose fetched author is in the link's
ignore-filter set, `batch_links` performs no store write (no
`repo.change_date` call) and creates no notification job: the entire
update-handling block is skipped, exactly as for an unchanged link. -/
theorem claim_C1 (env : Env) (l : LinkDTO) (info : Info) (d : String)
    (hd : URLTypeDefiner_define l.link = some d)
    (hf : env.fetch l = some info) (hig : info.user ∈ ignoresOf l) :
    processLink env l = .ok [] ∧ changeCalls (linkTrace env l) = [] ∧
    notifEvents (linkTrace env l) = [] := by
  have h1 : processLink env l = .ok [] := by
    rw [processLink_eq env l d info hd hf, if_neg (by simp [hig])]
  have h2 : linkTrace env l = [] := by simp [linkTrace, h1]
  exact ⟨h1, by simp [h2, changeCalls], by simp [h2, notifEvents]⟩

/-- Witness for C1 (amended) at the concrete ignored link. -/
theorem claim_C1_witness :
    URLTypeDefiner_define linkIgn.link = some "github.com" ∧
    env1.fetch linkIgn = some infoBob ∧ infoBob.user ∈ ignoresOf linkIgn ∧
    processLink env1 linkIgn = .ok [] :=
  ⟨rfl, rfl, by decide, (claim_C1 env1 linkIgn infoBob "github.com" rfl rfl (by decide)).1⟩

/-- C2 counterexample: for a page of 5 links, `chunk_size = max(1, 5 // 4) = 1`
(floor division, not ceiling), so `batch_links` builds 5 chunks of one link
each — not the claimed 4 chunks of ⌈5/4⌉ = 2 links. -/
theorem claim_C2_counterexample :
    links5.length = 5 ∧
    (chunksOf (max 1 (links5.length / 4)) links5).length = 5 ∧
    ¬ (chunksOf (max 1 (links5.length / 4)) links5).length = 4 := by
  have h5 : links5.length = 5 := rfl
  have hlen : (chunksOf (max 1 (links5.length / 4)) links5).length = 5 := by
    rw [chunksOf_length (max 1 (links5.length / 4)) (by omega) links5 (by simp [links5])]
    decide
  exact ⟨h5, hlen, by omega⟩

/-- C2 (amended): for every non-empty page of n links, `batch_links`
partitions it into consecutive chunks of `max 1 (n / 4)` links each (floor
division), only the last chunk possibly smaller but never empty; the chunks
are a disjoint partition covering every link of the page exactly once, and
there are ⌈n / max 1 (n / 4)⌉ of them — which can exceed 4 (e.g. 5 chunks for
n = 5). -/
theorem claim_C2 (links : List LinkDTO) (hne : links ≠ []) :
    (chunksOf (max 1 (links.length / 4)) links).flatten = links
  ∧ (∀ c ∈ (chunksOf (max 1 (links.length / 4)) links).dropLast,
        c.length = max 1 (links.length / 4))
  ∧ (∀ c ∈ chunksOf (max 1 (links.length / 4)) links,
        c ≠ [] ∧ c.length ≤ max 1 (links.length / 4))
  ∧ (chunksOf (max 1 (links.length / 4)) links).length
      = (links.length + max 1 (links.length / 4) - 1) / max 1 (links.length / 4) := by
  have hcs : 0 < max 1 (links.length / 4) := by omega
  exact ⟨chunksOf_flatten _ hcs links, chunksOf_dropLast_length _ hcs links,
    chunksOf_mem_length _ hcs links, chunksOf_length _ hcs links hne⟩

/-- Witness for C2 (amended) on the five-link page. -/
theorem claim_C2_witness :
    links5 ≠ [] ∧ (chunksOf (max 1 (links5.length / 4)) links5).flatten = links5 :=
  ⟨by simp [links5], (claim_C2 links5 (by simp [links5])).1⟩

/-- C3: for every link whose fetched activity marker equals the stored
marker, `batch_links` performs no `repo.change_date` call and creates no
notification job of any kind; running the comparison a second time on the
same stored/fetched pair likewise yields no side effects. -/
theorem claim_C3 (env : Env) (l : LinkDTO) (info : Info) (d : String)
    (hd : URLTypeDefiner_define l.link = some d)
    (hf : env.fetch l = some info) (heq : info.date = l.date) :
    processLink env l = .ok [] ∧ linkTrace env l = [] ∧
    changeCalls (linkTrace env l) = [] ∧ notifEvents (linkTrace env l) = [] ∧
    linkTrace env l ++ linkTrace env l = [] := by
  have h1 : processLink env l = .ok [] := by
    rw [processLink_eq env l d info hd hf, if_neg (by simp [heq])]
  have h2 : linkTrace env l = [] := by simp [linkTrace, h1]
  exact ⟨h1, h2, by simp [h2, changeCalls], by simp [h2, notifEvents], by simp [h2]⟩

/-- Witness for C3 at the concrete unchanged link. -/
theorem claim_C3_witness :
    URLTypeDefiner_define linkSame.link = some "github.com" ∧
    envSame.fetch linkSame = some infoSame ∧ infoSame.date = linkSame.date ∧
    processLink envSame linkSame = .ok [] :=
  ⟨rfl, rfl, rfl, (claim_C3 envSame linkSame infoSame "github.com" rfl rfl rfl).1⟩

/-- C4: for every link whose fetched marker differs from the stored one and
whose fetched author is not in the ignore set, exactly one notification job
is created; it is a deferred cron job (scheduled for
`nextRunPair today now t`) iff `repo.get_time_push_up` returns a non-None
time `t`, and otherwise — the lookup returning None or raising — the pair
joins the chunk's immediate-dispatch batch.  The final conjunct composes
this into `batch_links`: on a page of supported links the batch effects are
exactly the concatenated per-link traces, with the per-chunk immediate
batches handed to the sender. -/
theorem claim_C4 (env : Env) (l : LinkDTO) (info : Info) (d : String)
    (hd : URLTypeDefiner_define l.link = some d) (hf : env.fetch l = some info)
    (hne : info.date ≠ l.date) (hig : info.user ∉ ignoresOf l) :
    (notifEvents (linkTrace env l)).length = 1
  ∧ (∀ t, env.pushUp l.tg_id = .timeVal t →
      linkTrace env l =
        [.cronScheduled (oneShotId l.link_id) [(l, info)]
            (nextRunPair env.today env.nowMin t).1 (nextRunPair env.today env.nowMin t).2,
         .changeDateCall l.link_id info.date (env.changeOk l.link_id)])
  ∧ (effPushUp (env.pushUp l.tg_id) = none →
      linkTrace env l =
        [.appended (l, info),
         .changeDateCall l.link_id info.date (env.changeOk l.link_id)])
  ∧ (cronEvents (linkTrace env l) ≠ [] ↔ ∃ t, env.pushUp l.tg_id = .timeVal t)
  ∧ (∀ links, (∀ x ∈ links, URLTypeDefiner_define x.link ≠ none) →
      batch_links env links = .ok (links.flatMap (linkTrace env), toSendOf env links)) := by
  have h0 : processLink env l =
      .ok [routeEvent env l info,
           .changeDateCall l.link_id info.date (env.changeOk l.link_id)] := by
    rw [processLink_eq env l d info hd hf, if_pos ⟨hne, hig⟩]
  have htr : linkTrace env l =
      [routeEvent env l info,
       .changeDateCall l.link_id info.date (env.changeOk l.link_id)] := by
    simp [linkTrace, h0]
  refine ⟨?_, ?_, ?_, ?_, fun links h => batch_links_ok env links h⟩
  · rw [htr]
    cases hpu : env.pushUp l.tg_id <;>
      simp [notifEvents, routeEvent, effPushUp, hpu]
  · intro t ht
    rw [htr]
    simp [routeEvent, effPushUp, ht]
  · intro hnone
    rw [htr]
    simp [routeEvent, hnone]
  · rw [htr]
    cases hpu : env.pushUp l.tg_id <;>
      simp [cronEvents, routeEvent, effPushUp, hpu]

/-- Witness for C4 at the concrete changed link with a delivery preference. -/
theorem claim_C4_witness :
    URLTypeDefiner_define linkNew.link = some "stackoverflow.com" ∧
    envPush.fetch linkNew = some infoCarol ∧
    infoCarol.date ≠ linkNew.date ∧ infoCarol.user ∉ ignoresOf linkNew ∧
    (notifEvents (linkTrace envPush linkNew)).length = 1 :=
  ⟨rfl, rfl, by decide, by decide,
    (claim_C4 envPush linkNew infoCarol "stackoverflow.com" rfl rfl
      (by decide) (by decide)).1⟩

/-- C5: the run time computed by `_add_cron_task` is the next occurrence of
the preferred wall-clock time in the scheduler's fixed zone: its minute-of-day
is the preference, it is not earlier than the current instant, and it is the
earliest such instant on any day (in particular today if the time has not yet
passed, else tomorrow).  The last two conjuncts are the spec's scenarios:
preference 09:00 (minute 540) at clock 09:30 (minute 570) runs tomorrow at
09:00, and at clock 08:00 (minute 480) runs today at 09:00. -/
theorem claim_C5 (today nowMin notifMin : Nat) (h1 : nowMin < 1440) (h2 : notifMin < 1440) :
    ((nextRunPair today nowMin notifMin).2 = notifMin
  ∧ today * 1440 + nowMin ≤
      (nextRunPair today nowMin notifMin).1 * 1440 + (nextRunPair today nowMin notifMin).2
  ∧ (∀ d, today * 1440 + nowMin ≤ d * 1440 + notifMin →
      (nextRunPair today nowMin notifMin).1 * 1440 + (nextRunPair today nowMin notifMin).2
        ≤ d * 1440 + notifMin))
  ∧ nextRunPair today 570 540 = (today + 1, 540)
  ∧ nextRunPair today 480 540 = (today, 540) := by
  refine ⟨⟨?_, ?_, ?_⟩, by norm_num [nextRunPair], by norm_num [nextRunPair]⟩
  · unfold nextRunPair
    split <;> rfl
  · unfold nextRunPair
    split <;> simp <;> omega
  · intro e he
    unfold nextRunPair
    split <;> simp <;> omega

/-- Witness for C5 at the two concrete scenarios. -/
theorem claim_C5_witness :
    570 < 1440 ∧ 540 < 1440 ∧
    nextRunPair 0 570 540 = (1, 540) ∧ nextRunPair 0 480 540 = (0, 540) :=
  ⟨by norm_num, by norm_num,
    (claim_C5 0 570 540 (by norm_num) (by norm_num)).2.1,
    (claim_C5 0 570 540 (by norm_num) (by norm_num)).2.2⟩

/-- C6: deferred jobs are keyed by `one_shot_<link_id>`; adding a job under a
link's id leaves exactly one pending job under that id, re-adding before the
first fires replaces it (still exactly one pending), and firing the id
delivers the latest payload `j2`, never the replaced `j1`. -/
theorem claim_C6 (m : List (String × JobRec)) (linkId : Nat) (j1 j2 : JobRec) :
    pendingCount (addJob m (oneShotId linkId) j1) (oneShotId linkId) = 1
  ∧ pendingCount (addJob (addJob m (oneShotId linkId) j1) (oneShotId linkId) j2)
      (oneShotId linkId) = 1
  ∧ lookupJob (addJob (addJob m (oneShotId linkId) j1) (oneShotId linkId) j2)
      (oneShotId linkId) = some j2 := by
  refine ⟨?_, ?_, ?_⟩
  · rw [pendingCount, addJob_filter_eq]
    rfl
  · rw [pendingCount, addJob_filter_eq]
    rfl
  · unfold lookupJob
    rw [addJob_filter_eq]

/-- Witness for C6 on an initially empty job table. -/
theorem claim_C6_witness :
    pendingCount (addJob (addJob [] (oneShotId 1) ⟨[], 0, 540⟩) (oneShotId 1) ⟨[], 1, 540⟩)
      (oneShotId 1) = 1 :=
  (claim_C6 [] 1 ⟨[], 0, 540⟩ ⟨[], 1, 540⟩).2.1

/-- C7 counterexample: `URLTypeDefiner.define` and `ClientFactory.create_client`
run before the `try:` block (batch_links_service.py lines 105-108), so the
`UrlIsNotSupportedException` for `linkBad` propagates out of `batch_links`:
the remaining link `linkGood` — which alone would have produced a change and
a notification — is never evaluated, and the polling loop, which has no
try/except around `batch_links`, terminates instead of advancing the page. -/
theorem claim_C7_counterexample :
    URLTypeDefiner_define linkBad.link = none ∧
    processLink env2 linkGood =
      .ok [.appended (linkGood, infoCarol), .changeDateCall 6 "2024" true] ∧
    batch_links env2 [linkBad, linkGood] = .error [] ∧
    schedStep (fun _ => [linkBad, linkGood]) env2 1 = .error [] := by
  refine ⟨rfl, rfl, batch_links_error_head env2 linkBad [linkGood] rfl, ?_⟩
  unfold schedStep
  simp only [List.isEmpty_cons, Bool.false_eq_true, if_false]
  rw [batch_links_error_head env2 linkBad [linkGood] rfl]

/-- C7 (amended): on a page whose links all have supported URL domains, an
exception raised inside the per-link `try` block (network failure,
unsupported filter, resource missing, non-2xx upstream — all surfacing as a
raised fetch) is caught: the failing link contributes no effects, every other
link of the page is still evaluated, and the loop advances to the next page.
A link whose URL domain is unsupported, however, raises before the `try` and
aborts the whole page and the loop (see the counterexample). -/
theorem claim_C7 (env : Env) (getPage : Nat → List LinkDTO) (page : Nat)
    (pre post : List LinkDTO) (l : LinkDTO)
    (hpage : getPage page = pre ++ l :: post)
    (hsup : ∀ x ∈ getPage page, URLTypeDefiner_define x.link ≠ none)
    (hfail : env.fetch l = none) :
    linkTrace env l = []
  ∧ (getPage page).flatMap (linkTrace env) = (pre ++ post).flatMap (linkTrace env)
  ∧ schedStep getPage env page
      = .ok (page + 1, none,
          ((getPage page).flatMap (linkTrace env), toSendOf env (getPage page))) := by
  have hl : linkTrace env l = [] := by
    obtain ⟨d, hd'⟩ := Option.ne_none_iff_exists'.mp (hsup l (by rw [hpage]; simp))
    have hok : processLink env l = .ok [] := by
      unfold processLink
      rw [hd', hfail]
    simp [linkTrace, hok]
  have hemp : (getPage page).isEmpty = false := by
    rw [hpage]
    simp
  refine ⟨hl, ?_, ?_⟩
  · rw [hpage]
    simp [List.flatMap_append, List.flatMap_cons, hl]
  · unfold schedStep
    simp only [hemp, Bool.false_eq_true, if_false]
    rw [batch_links_ok env (getPage page) hsup]

/-- Witness for C7 (amended): the failing fetch of `linkG1` contributes no
effects while the page still advances. -/
theorem claim_C7_witness :
    (fun _ : Nat => [linkG1, linkG2]) 1 = [] ++ linkG1 :: [linkG2] ∧
    (∀ x ∈ (fun _ : Nat => [linkG1, linkG2]) 1, URLTypeDefiner_define x.link ≠ none) ∧
    envFail.fetch linkG1 = none ∧
    linkTrace envFail linkG1 = [] :=
  ⟨rfl, by decide, rfl,
    (claim_C7 envFail (fun _ => [linkG1, linkG2]) 1 [] [linkG2] linkG1 rfl
      (by decide) rfl).1⟩

/-- C8 counterexample: a non-empty page containing a link with an unsupported
URL domain makes `batch_links` raise, so the iteration neither advances the
page nor sleeps — the loop terminates on its own, contradicting the claim
that it never does. -/
theorem claim_C8_counterexample :
    (fun _ : Nat => [linkBad]) 1 ≠ [] ∧
    schedStep (fun _ => [linkBad]) env2 1 = .error [] := by
  refine ⟨by simp, ?_⟩
  unfold schedStep
  simp only [List.isEmpty_cons, Bool.false_eq_true, if_false]
  rw [batch_links_error_head env2 linkBad [] rfl]

/-- C8 (amended): each polling-loop iteration reads one page; an empty page
resets the counter to 1 and sleeps 3600 seconds before the next read; a
non-empty page whose links all have supported URL domains is batch-processed
and the counter advances by 1 with no sleep.  The loop does not terminate on
its own except when an unsupported URL domain makes `batch_links` raise (see
the counterexample). -/
theorem claim_C8 (env : Env) (getPage : Nat → List LinkDTO) (page : Nat) :
    (getPage page = [] → schedStep getPage env page = .ok (1, some 3600, ([], [])))
  ∧ (getPage page ≠ [] → (∀ x ∈ getPage page, URLTypeDefiner_define x.link ≠ none) →
      schedStep getPage env page
        = .ok (page + 1, none,
            ((getPage page).flatMap (linkTrace env), toSendOf env (getPage page)))) := by
  constructor
  · intro h
    unfold schedStep
    simp [h]
  · intro hne hsup
    have hemp : (getPage page).isEmpty = false := by
      simp [List.isEmpty_iff, hne]
    unfold schedStep
    simp only [hemp, Bool.false_eq_true, if_false]
    rw [batch_links_ok env (getPage page) hsup]

/-- Witness for C8 (amended): the empty page resets to page 1 with the
one-hour sleep, and a good single-link page advances to page 2. -/
theorem claim_C8_witness :
    schedStep (fun _ => []) env2 5 = .ok (1, some 3600, ([], [])) ∧
    ((fun _ : Nat => [linkGood]) 1 ≠ [] ∧
      schedStep (fun _ => [linkGood]) env2 1
        = .ok (2, none,
            (([linkGood] : List LinkDTO).flatMap (linkTrace env2),
             toSendOf env2 [linkGood]))) :=
  ⟨(claim_C8 env2 (fun _ => []) 5).1 rfl,
   by simp,
   (claim_C8 env2 (fun _ => [linkGood]) 1).2 (by simp) (by decide)⟩

/-- C9: `send_update_request` attempts exactly one delivery per pair of its
batch; the empty batch is a no-op; and for any pair in the batch — in
particular one whose POST raises (`post … = false`, caught per-pair) — the
attempts before and after it are exactly the attempts for the surrounding
pairs, so one failure never blocks the rest of the batch. -/
theorem claim_C9 (post : Payload → Bool) (descMaker : Info → String)
    (links_info : List (LinkDTO × Info)) :
    (send_update_request post descMaker links_info).length = links_info.length
  ∧ send_update_request post descMaker ([] : List (LinkDTO × Info)) = []
  ∧ (∀ pre x rest, links_info = pre ++ x :: rest →
      send_update_request post descMaker links_info
        = send_update_request post descMaker pre
          ++ (mkPayload descMaker x, post (mkPayload descMaker x))
            :: send_update_request post descMaker rest) := by
  refine ⟨send_update_request_length post descMaker links_info, rfl, ?_⟩
  intro pre x rest h
  rw [h, send_update_request_append]
  rfl

/-- Witness for C9: a two-pair batch whose first POST fails still attempts
the second pair. -/
theorem claim_C9_witness :
    ([(linkG1, infoCarol), (linkGood, infoCarol)] : List (LinkDTO × Info))
      = [] ++ (linkG1, infoCarol) :: [(linkGood, infoCarol)] ∧
    send_update_request (fun p => p.id ≠ 14) (fun i => i.date)
        [(linkG1, infoCarol), (linkGood, infoCarol)]
      = send_update_request (fun p => p.id ≠ 14) (fun i => i.date) []
        ++ (mkPayload (fun i => i.date) (linkG1, infoCarol),
            (fun p : Payload => (p.id ≠ 14 : Bool)) (mkPayload (fun i => i.date) (linkG1, infoCarol)))
          :: send_update_request (fun p => p.id ≠ 14) (fun i => i.date) [(linkGood, infoCarol)] :=
  ⟨rfl,
    (claim_C9 (fun p => p.id ≠ 14) (fun i => i.date)
        [(linkG1, infoCarol), (linkGood, infoCarol)]).2.2
      [] (linkG1, infoCarol) [(linkGood, infoCarol)] rfl⟩

/-- C10: change detection, notification routing and marker persistence are
not atomic.  When a change is detected, the notification job is routed first
(lines 129-134) and `repo.change_date` is called after (line 136); if that
call raises, the already-routed job is not revoked — the trace still begins
with the routing event — while no marker write lands, so an identical fetch
on the next poll detects the same change again. -/
theorem claim_C10 (env : Env) (l : LinkDTO) (info : Info) (d : String)
    (hd : URLTypeDefiner_define l.link = some d) (hf : env.fetch l = some info)
    (hne : info.date ≠ l.date) (hig : info.user ∉ ignoresOf l)
    (hfail : env.changeOk l.link_id = false) :
    linkTrace env l = [routeEvent env l info, .changeDateCall l.link_id info.date false]
  ∧ notifEvents (linkTrace env l) = [routeEvent env l info]
  ∧ appliedChanges (linkTrace env l) = []
  ∧ changeCalls (linkTrace env l) = [(l.link_id, info.date)]
  ∧ (∀ env' : Env, env'.fetch l = some info → notifEvents (linkTrace env' l) ≠ []) := by
  have h0 : processLink env l =
      .ok [routeEvent env l info, .changeDateCall l.link_id info.date false] := by
    rw [processLink_eq env l d info hd hf, if_pos ⟨hne, hig⟩, hfail]
  have htr : linkTrace env l =
      [routeEvent env l info, .changeDateCall l.link_id info.date false] := by
    simp [linkTrace, h0]
  refine ⟨htr, ?_, ?_, ?_, ?_⟩
  · rw [htr]
    cases hpu : env.pushUp l.tg_id <;>
      simp [notifEvents, routeEvent, effPushUp, hpu]
  · rw [htr]
    cases hpu : env.pushUp l.tg_id <;>
      simp [appliedChanges, routeEvent, effPushUp, hpu]
  · rw [htr]
    cases hpu : env.pushUp l.tg_id <;>
      simp [changeCalls, routeEvent, effPushUp, hpu]
  · intro env' hf'
    have h0' : processLink env' l =
        .ok [routeEvent env' l info,
             .changeDateCall l.link_id info.date (env'.changeOk l.link_id)] := by
      rw [processLink_eq env' l d info hd hf', if_pos ⟨hne, hig⟩]
    have htr' : linkTrace env' l =
        [routeEvent env' l info,
         .changeDateCall l.link_id info.date (env'.changeOk l.link_id)] := by
      simp [linkTrace, h0']
    rw [htr']
    cases hpu : env'.pushUp l.tg_id <;>
      simp [notifEvents, routeEvent, effPushUp, hpu]

/-- Witness for C10: the routed job survives the failed marker write. -/
theorem claim_C10_witness :
    URLTypeDefiner_define linkGood.link = some "github.com" ∧
    envCDFail.fetch linkGood = some infoCarol ∧
    infoCarol.date ≠ linkGood.date ∧ infoCarol.user ∉ ignoresOf linkGood ∧
    envCDFail.changeOk linkGood.link_id = false ∧
    appliedChanges (linkTrace envCDFail linkGood) = [] :=
  ⟨rfl, rfl, by decide, by decide, rfl,
    (claim_C10 envCDFail linkGood infoCarol "github.com" rfl rfl
      (by decide) (by decide) rfl).2.2.1⟩
